import Mathlib

/-!
Verification of the partitioned time-series query engine of this repository.

Part 1 embeds the Range Partitioner
(public/app/plugins/datasource/loki/metricTimeSplit.ts): `expandTimeRange`,
`getAllPoints`, lodash `chunk` and `getRanges`.  Timestamps are unix
milliseconds, modelled as `Nat` (the source manipulates non-negative integer
millisecond timestamps).

Part 2 embeds the Partitioned Query Scheduler
(public/app/plugins/datasource/loki/querySplitting.ts): `runPartitionedQuery`
and its inner `next` function.  The external collaborators `datasource.runQuery`
(execution capability), `combineResponses` (merger) and `resultLimitReached`
(limit predicate) are imported from modules outside this repository snapshot,
so they are abstract parameters of the model.  The scheduler's asynchronous
callback chaining is linearized into the sequence of externally observable
events (sub-query dispatches and subscriber emissions) in the order the
single-threaded JS runtime produces them when each query result arrives
asynchronously, after the callback that dispatched it has returned.
-/

/-- Embeds expandTimeRange (metricTimeSplit.ts lines 10-22): the start is
decreased to the closest multiple of step, the end is increased to the closest
multiple of step. -/
def expandTimeRange (startTime endTime step : Nat) : Nat × Nat :=
  let newStartTime := startTime - startTime % step
  let endStepMod := endTime % step
  let newEndTime := if endStepMod ≠ 0 then endTime + (step - endStepMod) else endTime
  (newStartTime, newEndTime)

/-- Helper: the ascending arithmetic sequence a, a+s, ..., a+(n-1)s; the value
produced by the source's point-enumeration loop when it runs n iterations. -/
def pointsFrom (a s n : Nat) : List Nat :=
  (List.range n).map fun i => a + i * s

/-- Literal embedding of the for-loop of getAllPoints:
for (let current = alignedStart; current <= alignedEnd; current += step).
The conjunct 1 <= step in the guard makes the recursion well-founded; it is
justified because for step = 0 the source's loop variable starts at
startTime % 0 = NaN, the comparison NaN <= alignedEnd is false, and the body
never runs, which is the same empty result. -/
def forPoints (alignedEnd step : Nat) (current : Nat) : List Nat :=
  if _h : 1 ≤ step ∧ current ≤ alignedEnd then
    current :: forPoints alignedEnd step (current + step)
  else []
termination_by alignedEnd + 1 - current
decreasing_by omega

/-- Embeds getAllPoints (metricTimeSplit.ts lines 24-33): all points of the
step grid between the expanded bounds, inclusive.  The loop is given in closed
form so that the definition computes by kernel reduction; the lemma
getAllPoints_eq_forPoints below proves it equal to the literal loop forPoints
for every step >= 1, and for step = 0 the source's loop never runs (NaN guard),
matching the first branch. -/
def getAllPoints (startTime endTime step : Nat) : List Nat :=
  if step = 0 then []
  else
    let aligned := expandTimeRange startTime endTime step
    if aligned.1 ≤ aligned.2 then
      pointsFrom aligned.1 step ((aligned.2 - aligned.1) / step + 1)
    else []

/-- Worker for the embedding of lodash chunk: consumes the input one element at
a time, cur holds the (reversed) chunk under construction and r the number of
slots left in it.  Structural recursion on the input list keeps the definition
computable by the kernel; chunkList_eq below proves the take/drop
characterization that is lodash chunk's documented behavior. -/
def chunkGo {α : Type} (k : Nat) : List α → List α → Nat → List (List α)
  | [], [], _ => []
  | [], cur, _ => [cur.reverse]
  | x :: xs, cur, 0 => cur.reverse :: chunkGo k xs [x] (k - 1)
  | x :: xs, cur, r + 1 => chunkGo k xs (x :: cur) r

/-- Embeds lodash chunk(array, size): splits the array into groups of length
size; the final group holds the remaining elements and may be shorter. -/
def chunkList {α : Type} (k : Nat) (xs : List α) : List (List α) :=
  chunkGo k xs [] k

/-- Embeds the forEach/push loop of getRanges (metricTimeSplit.ts lines 58-67):
for each chunk, start = range.at(-1) (last element), end = range[0] (first
element), and the pair is kept only when both are defined. -/
def rangesOf (chunks : List (List Nat)) : List (Nat × Nat) :=
  chunks.filterMap fun range =>
    match range.getLast?, range.head? with
    | some rangeStart, some rangeEnd => some (rangeStart, rangeEnd)
    | _, _ => none

/-- Embeds getRanges (metricTimeSplit.ts lines 35-73).  The thrown Error is
modelled as Except.error.  Math.trunc(idealRangeSize / step) on non-negative
integers is Nat division; for step = 0 the source computes Infinity there, but
that chunk size is only ever applied to the empty point list (step = 0 makes
getAllPoints empty), and chunking the empty list yields [] either way. -/
def getRanges (startTime endTime step idealRangeSize : Nat) :
    Except String (List (Nat × Nat)) :=
  if idealRangeSize < 1 then
    Except.error ("idealRangeSize must be at least 1")
  else
    let pointsInChunk := max (idealRangeSize / step) 1
    let allPoints := (getAllPoints startTime endTime step).reverse
    Except.ok (rangesOf (chunkList pointsInChunk allPoints)).reverse

/-- Helper: the descending arithmetic sequence a+(n-1)s, ..., a+s, a; equal to
(pointsFrom a s n).reverse, the list the source chunks. -/
def descFrom (a s : Nat) : Nat → List Nat
  | 0 => []
  | n + 1 => (a + n * s) :: descFrom a s n

/-- LoadingState of the emitted responses (from the grafana schema); the
scheduler only ever assigns Streaming and Done. -/
inductive LoadingState : Type where
  | NotStarted
  | Loading
  | Streaming
  | Done
  | Error
deriving DecidableEq, Repr

/-- The fields of the cloned sub-request that the scheduler overrides before
handing it to the execution capability: range = partition[requestN - 1] and
requestId = `${request.requestId}_${requestN}` (querySplitting.ts lines 33-36).
All other request fields are passed through unchanged and play no role here. -/
structure SubRequest : Type where
  range : Nat × Nat
  requestId : String
deriving DecidableEq, Repr

/-- An externally observable event of one scheduler run: a sub-query dispatch
(datasource.runQuery call), a value delivered to the output subscriber
(subscriber.next), or a terminal error delivered to the output subscriber
(subscriber.error).  The source installs no error callback on its inner
subscription, so subError is never produced by the model, mirroring the code. -/
inductive SchedulerEvent (R E : Type) : Type where
  | dispatch (req : SubRequest)
  | emit (response : R) (state : LoadingState)
  | subError (e : E)
deriving DecidableEq, Repr

/-- True exactly on subError events. -/
def isSubError {R E : Type} : SchedulerEvent R E → Bool
  | .subError _ => true
  | _ => false

/-- The sub-request built by next for a given requestN (querySplitting.ts
lines 33-34): range = partition[requestN - 1], requestId = rid_requestN.
The source indexes the partition array directly; the model's default (0, 0) is
only reachable when the index is out of bounds, which the scheduler never does
for a non-empty partition list. -/
def reqFor (partition : List (Nat × Nat)) (rid : String) (requestN : Nat) :
    SubRequest :=
  { range := partition.getD (requestN - 1) (0, 0)
    requestId := rid ++ "_" ++ toString requestN }

/-- Events caused by the arrival of the result of sub-query requestN and by
everything the scheduler does afterwards (querySplitting.ts lines 44-55): on
success the partial response is merged; if requestN > 1 and the limit is not
reached, the next (older) sub-query is dispatched and the merged response is
emitted with state Streaming (in that order: the recursive next call precedes
subscriber.next in the source); otherwise the merged response is emitted with
state Done.  On failure nothing at all happens: the subscribe call passes no
error callback, so no event reaches the output subscriber and no further
sub-query is dispatched.  requestN = 0 is unreachable for the non-empty
partition lists the claims deal with. -/
def afterResult {E R : Type} (partition : List (Nat × Nat)) (rid : String)
    (exec : SubRequest → Except E R) (combine : Option R → R → R)
    (limit : R → Bool) : Nat → Option R → List (SchedulerEvent R E)
  | 0, _ => []
  | n + 1, acc =>
    match exec (reqFor partition rid (n + 1)) with
    | .error _ => []
    | .ok partResp =>
      let merged := combine acc partResp
      if 1 < n + 1 ∧ limit merged = false then
        SchedulerEvent.dispatch (reqFor partition rid n)
          :: SchedulerEvent.emit merged LoadingState.Streaming
          :: afterResult partition rid exec combine limit n (some merged)
      else
        [SchedulerEvent.emit merged LoadingState.Done]

/-- Embeds the inner function next(subscriber, requestN) (querySplitting.ts
lines 32-56): it dispatches sub-query requestN and the rest of the run is the
handling of its result. -/
def next {E R : Type} (partition : List (Nat × Nat)) (rid : String)
    (exec : SubRequest → Except E R) (combine : Option R → R → R)
    (limit : R → Bool) : Nat → Option R → List (SchedulerEvent R E)
  | 0, _ => []
  | n + 1, acc =>
    SchedulerEvent.dispatch (reqFor partition rid (n + 1))
      :: afterResult partition rid exec combine limit (n + 1) acc

/-- Embeds runPartitionedQuery (querySplitting.ts lines 11-63): the run starts
with next(subscriber, totalRequests) where totalRequests = partition.length and
the accumulator mergedResponse starts absent. -/
def runPartitionedQuery {E R : Type} (partition : List (Nat × Nat))
    (rid : String) (exec : SubRequest → Except E R)
    (combine : Option R → R → R) (limit : R → Bool) :
    List (SchedulerEvent R E) :=
  next partition rid exec combine limit partition.length none

/-- The sub-requests dispatched during a run, in dispatch order. -/
def dispatches {R E : Type} (t : List (SchedulerEvent R E)) : List SubRequest :=
  t.filterMap fun ev =>
    match ev with
    | .dispatch req => some req
    | _ => none

/-- The events delivered to the output subscriber during a run, in order. -/
def outputEvents {R E : Type} (t : List (SchedulerEvent R E)) :
    List (SchedulerEvent R E) :=
  t.filter fun ev =>
    match ev with
    | .dispatch _ => false
    | _ => true

/-- Helper: the sub-requests for requestN = n, n-1, ..., 1, which is the
dispatch order of a run of n partitions in which no stop occurs. -/
def reqsFrom (partition : List (Nat × Nat)) (rid : String) :
    Nat → List SubRequest
  | 0 => []
  | n + 1 => reqFor partition rid (n + 1) :: reqsFrom partition rid n

/-- Concrete requestId used by witnesses and counterexamples. -/
def ridA : String := "A"

/-- Concrete two-partition list for witnesses and counterexamples. -/
def partitionTwo : List (Nat × Nat) := [(0, 0), (1, 1)]

/-- Concrete three-partition list for witnesses and counterexamples. -/
def partitionThree : List (Nat × Nat) := [(0, 0), (1, 1), (2, 2)]

/-- Concrete five-partition list for witnesses and counterexamples. -/
def partitionFive : List (Nat × Nat) := [(0, 0), (1, 1), (2, 2), (3, 3), (4, 4)]

/-- Concrete merger for witnesses: sum of the partial responses. -/
def sumCombine : Option Nat → Nat → Nat := fun acc r => acc.getD 0 + r

/-- Concrete limit predicate that never stops. -/
def noLimit : Nat → Bool := fun _ => false

/-- Concrete limit predicate reached at accumulated value 9. -/
def limitAtNine : Nat → Bool := fun m => decide (9 ≤ m)

/-- Concrete execution capability that always succeeds with value 1. -/
def okExecOne : SubRequest → Except Unit Nat := fun _ => Except.ok 1

/-- Concrete execution capability that always succeeds with value 5. -/
def okExecFive : SubRequest → Except Unit Nat := fun _ => Except.ok 5

/-- Concrete execution capability failing exactly on sub-request A_2. -/
def execFailTwo : SubRequest → Except Unit Nat := fun req =>
  if req.requestId = ("A_2" : String) then Except.error () else Except.ok 1

/-! Helper lemmas about pointsFrom and descFrom. -/

lemma pointsFrom_snoc (a s n : Nat) :
    pointsFrom a s (n + 1) = pointsFrom a s n ++ [a + n * s] := by
  unfold pointsFrom
  rw [List.range_succ, List.map_append]
  rfl

lemma pointsFrom_cons (a s n : Nat) :
    pointsFrom a s (n + 1) = a :: pointsFrom (a + s) s n := by
  unfold pointsFrom
  rw [List.range_succ_eq_map, List.map_cons, List.map_map]
  have hf : ((fun i => a + i * s) ∘ Nat.succ) = fun i => (a + s) + i * s := by
    funext i
    simp only [Function.comp_apply, Nat.succ_eq_add_one]
    ring
  rw [hf]
  norm_num

lemma pointsFrom_length (a s n : Nat) : (pointsFrom a s n).length = n := by
  simp [pointsFrom]

lemma mem_pointsFrom {x a s n : Nat} :
    x ∈ pointsFrom a s n ↔ ∃ i, i < n ∧ x = a + i * s := by
  constructor
  · intro hx
    simp only [pointsFrom, List.mem_map, List.mem_range] at hx
    obtain ⟨i, hi, hx⟩ := hx
    exact ⟨i, hi, hx.symm⟩
  · rintro ⟨i, hi, rfl⟩
    simp only [pointsFrom, List.mem_map, List.mem_range]
    exact ⟨i, hi, rfl⟩

lemma pointsFrom_reverse (a s n : Nat) :
    (pointsFrom a s n).reverse = descFrom a s n := by
  induction n with
  | zero => rfl
  | succ n ih =>
    rw [pointsFrom_snoc, List.reverse_append, ih]
    rfl

lemma descFrom_length (a s : Nat) : ∀ n, (descFrom a s n).length = n
  | 0 => rfl
  | n + 1 => by simp [descFrom, descFrom_length a s n]

lemma descFrom_ne_nil (a s n : Nat) : descFrom a s (n + 1) ≠ [] := by
  simp [descFrom]

lemma descFrom_head? (a s n : Nat) :
    (descFrom a s (n + 1)).head? = some (a + n * s) := rfl

lemma descFrom_getLast? (a s : Nat) :
    ∀ n, (descFrom a s (n + 1)).getLast? = some a
  | 0 => by simp [descFrom]
  | n + 1 => by
    show ((a + (n + 1) * s) :: (a + n * s) :: descFrom a s n).getLast? = some a
    rw [List.getLast?_cons_cons]
    exact descFrom_getLast? a s n

lemma descFrom_take (a s : Nat) :
    ∀ (k N : Nat), (descFrom a s N).take k =
      descFrom (a + (N - min k N) * s) s (min k N)
  | 0, N => by simp [descFrom]
  | k + 1, 0 => by simp [descFrom]
  | k + 1, N + 1 => by
    show ((a + N * s) :: descFrom a s N).take (k + 1) = _
    rw [List.take_succ_cons, descFrom_take a s k N]
    have hmin : min (k + 1) (N + 1) = min k N + 1 := Nat.succ_min_succ k N
    rw [hmin]
    have h1 : N + 1 - (min k N + 1) = N - min k N := by omega
    rw [h1]
    have h3 : N - min k N + min k N = N := by omega
    have h2 : a + (N - min k N) * s + min k N * s = a + N * s := by
      rw [Nat.add_assoc, ← Nat.add_mul, h3]
    rw [show descFrom (a + (N - min k N) * s) s (min k N + 1) =
          (a + (N - min k N) * s + min k N * s)
            :: descFrom (a + (N - min k N) * s) s (min k N) from rfl, h2]

lemma descFrom_drop (a s : Nat) :
    ∀ (k N : Nat), (descFrom a s N).drop k = descFrom a s (N - k)
  | 0, N => by simp
  | k + 1, 0 => by simp [descFrom]
  | k + 1, N + 1 => by
    show ((a + N * s) :: descFrom a s N).drop (k + 1) = _
    rw [List.drop_succ_cons, descFrom_drop a s k N,
      show N + 1 - (k + 1) = N - k from by omega]

/-! Helper lemmas about the chunking worker. -/

lemma chunkGo_of_length_le {α : Type} (k : Nat) (xs : List α) :
    ∀ (cur : List α) (r : Nat), xs ≠ [] → xs.length ≤ r →
      chunkGo k xs cur r = [cur.reverse ++ xs] := by
  induction xs with
  | nil => intro cur r hne _; exact absurd rfl hne
  | cons x xs ih =>
    intro cur r _ hlen
    cases r with
    | zero => exact absurd hlen (by simp)
    | succ r =>
      show chunkGo k xs (x :: cur) r = [cur.reverse ++ x :: xs]
      cases xs with
      | nil =>
        show [(x :: cur).reverse] = [cur.reverse ++ [x]]
        simp
      | cons y ys =>
        rw [ih (x :: cur) r (by simp)
          (by simp only [List.length_cons] at hlen ⊢; omega)]
        simp

lemma chunkGo_split {α : Type} (k : Nat) (hk : 1 ≤ k) :
    ∀ (r : Nat) (xs : List α) (cur : List α), r < xs.length →
      chunkGo k xs cur r = (cur.reverse ++ xs.take r) :: chunkGo k (xs.drop r) [] k := by
  intro r
  induction r with
  | zero =>
    intro xs cur hlen
    cases xs with
    | nil => simp at hlen
    | cons x xs =>
      obtain ⟨k', rfl⟩ : ∃ k', k = k' + 1 := ⟨k - 1, by omega⟩
      show cur.reverse :: chunkGo (k' + 1) xs [x] (k' + 1 - 1) =
        (cur.reverse ++ (x :: xs).take 0) :: chunkGo (k' + 1) ((x :: xs).drop 0) [] (k' + 1)
      show cur.reverse :: chunkGo (k' + 1) xs [x] (k' + 1 - 1) =
        (cur.reverse ++ []) :: chunkGo (k' + 1) xs [x] k'
      simp
  | succ r ih =>
    intro xs cur hlen
    cases xs with
    | nil => simp at hlen
    | cons x xs =>
      show chunkGo k xs (x :: cur) r =
        (cur.reverse ++ (x :: xs).take (r + 1)) :: chunkGo k ((x :: xs).drop (r + 1)) [] k
      rw [ih xs (x :: cur) (by simp only [List.length_cons] at hlen; omega)]
      simp [List.take_succ_cons, List.drop_succ_cons]

lemma chunkList_nil {α : Type} (k : Nat) : chunkList k ([] : List α) = [] := rfl

lemma chunkList_eq {α : Type} (k : Nat) (hk : 1 ≤ k) (xs : List α) (hne : xs ≠ []) :
    chunkList k xs = xs.take k :: chunkList k (xs.drop k) := by
  by_cases hlen : xs.length ≤ k
  · rw [chunkList, chunkGo_of_length_le k xs [] k hne hlen,
      List.take_of_length_le hlen, List.drop_of_length_le hlen]
    simp [chunkList, chunkGo]
  · rw [chunkList, chunkGo_split k hk k xs [] (by omega)]
    simp [chunkList]

/-! Helper lemmas tying getAllPoints to the literal loop and to pointsFrom. -/

lemma forPoints_eq (s e : Nat) (hs : 1 ≤ s) :
    ∀ c, forPoints e s c =
      if c ≤ e then pointsFrom c s ((e - c) / s + 1) else [] := by
  have key : ∀ (fuel c : Nat), e + 1 - c ≤ fuel →
      forPoints e s c = if c ≤ e then pointsFrom c s ((e - c) / s + 1) else [] := by
    intro fuel
    induction fuel with
    | zero =>
      intro c hc
      have hce : ¬ c ≤ e := by omega
      rw [forPoints, dif_neg (fun h => hce h.2), if_neg hce]
    | succ fuel ih =>
      intro c hc
      by_cases hce : c ≤ e
      · rw [forPoints, dif_pos ⟨hs, hce⟩, ih (c + s) (by omega), if_pos hce]
        by_cases h2 : c + s ≤ e
        · rw [if_pos h2]
          have hstep : (e - c) / s = (e - (c + s)) / s + 1 := by
            rw [Nat.div_eq_sub_div (by omega) (by omega),
              show e - c - s = e - (c + s) from by omega]
          rw [hstep, pointsFrom_cons c s ((e - (c + s)) / s + 1)]
        · rw [if_neg h2]
          have h0 : (e - c) / s = 0 := Nat.div_eq_of_lt (by omega)
          rw [h0]
          simp [pointsFrom, List.range_succ]
      · rw [forPoints, dif_neg (fun h => hce h.2), if_neg hce]
  intro c
  exact key (e + 1 - c) c (Nat.le_refl _)

lemma getAllPoints_eq_forPoints (startTime endTime step : Nat) (hs : 1 ≤ step) :
    getAllPoints startTime endTime step =
      forPoints (expandTimeRange startTime endTime step).2 step
        (expandTimeRange startTime endTime step).1 := by
  rw [forPoints_eq _ _ hs]
  simp only [getAllPoints]
  rw [if_neg (by omega)]

/-! Helper lemmas about expandTimeRange. -/

lemma expandTimeRange_fst_mod (startTime endTime step : Nat) :
    (expandTimeRange startTime endTime step).1 % step = 0 := by
  show (startTime - startTime % step) % step = 0
  have h := Nat.div_add_mod startTime step
  have h2 : startTime - startTime % step = step * (startTime / step) := by omega
  rw [h2, Nat.mul_mod_right]

lemma expandTimeRange_snd_mod (startTime endTime step : Nat) (hs : 1 ≤ step) :
    (expandTimeRange startTime endTime step).2 % step = 0 := by
  show (if endTime % step ≠ 0 then endTime + (step - endTime % step)
    else endTime) % step = 0
  by_cases h : endTime % step = 0
  · rw [if_neg (not_not_intro h)]
    exact h
  · rw [if_pos h]
    have hd := Nat.div_add_mod endTime step
    have hlt : endTime % step < step := Nat.mod_lt _ (by omega)
    have h2 : endTime + (step - endTime % step) = step * (endTime / step + 1) := by
      rw [Nat.mul_add, Nat.mul_one]
      omega
    rw [h2, Nat.mul_mod_right]

lemma expandTimeRange_fst_le (startTime endTime step : Nat) :
    (expandTimeRange startTime endTime step).1 ≤ startTime := by
  show startTime - startTime % step ≤ startTime
  omega

lemma expandTimeRange_le_snd (startTime endTime step : Nat) :
    endTime ≤ (expandTimeRange startTime endTime step).2 := by
  show endTime ≤ if endTime % step ≠ 0 then endTime + (step - endTime % step)
    else endTime
  by_cases h : endTime % step = 0
  · rw [if_neg (not_not_intro h)]
  · rw [if_pos h]
    omega

lemma getAllPoints_eq_of (startTime endTime step : Nat) (hs : 1 ≤ step)
    (hle : (expandTimeRange startTime endTime step).1 ≤
      (expandTimeRange startTime endTime step).2) :
    getAllPoints startTime endTime step =
      pointsFrom (expandTimeRange startTime endTime step).1 step
        (((expandTimeRange startTime endTime step).2 -
          (expandTimeRange startTime endTime step).1) / step + 1) := by
  simp only [getAllPoints]
  rw [if_neg (by omega), if_pos hle]

lemma getAllPoints_exists_pointsFrom (startTime endTime step : Nat)
    (hs : 1 ≤ step) (hse : startTime ≤ endTime) :
    ∃ m, getAllPoints startTime endTime step =
        pointsFrom (expandTimeRange startTime endTime step).1 step (m + 1) ∧
      (expandTimeRange startTime endTime step).2 =
        (expandTimeRange startTime endTime step).1 + m * step := by
  have hAle : (expandTimeRange startTime endTime step).1 ≤
      (expandTimeRange startTime endTime step).2 :=
    le_trans (le_trans (expandTimeRange_fst_le startTime endTime step) hse)
      (expandTimeRange_le_snd startTime endTime step)
  have hAm := expandTimeRange_fst_mod startTime endTime step
  have hBm := expandTimeRange_snd_mod startTime endTime step hs
  obtain ⟨m, hm⟩ : step ∣ (expandTimeRange startTime endTime step).2 -
      (expandTimeRange startTime endTime step).1 :=
    Nat.dvd_sub' (Nat.dvd_of_mod_eq_zero hBm) (Nat.dvd_of_mod_eq_zero hAm)
  have hcount : ((expandTimeRange startTime endTime step).2 -
      (expandTimeRange startTime endTime step).1) / step = m := by
    rw [hm]
    exact Nat.mul_div_cancel_left m (by omega)
  refine ⟨m, ?_, by rw [Nat.mul_comm]; omega⟩
  rw [getAllPoints_eq_of startTime endTime step hs hAle, hcount]

lemma getAllPoints_aligned (b step m : Nat) (hs : 1 ≤ step) (hb : b % step = 0) :
    getAllPoints b (b + m * step) step = pointsFrom b step (m + 1) := by
  have h2 : (b + m * step) % step = 0 := by
    rw [Nat.add_mul_mod_self_right, hb]
  have h1 : expandTimeRange b (b + m * step) step = (b, b + m * step) := by
    unfold expandTimeRange
    simp [hb, h2]
  rw [getAllPoints_eq_of _ _ _ hs (by rw [h1]; exact Nat.le_add_right _ _), h1]
  have hcount : (b + m * step - b) / step = m := by
    rw [Nat.add_sub_cancel_left]
    exact Nat.mul_div_cancel _ (by omega)
  rw [hcount]

/-! The chunked descending grid: one unfolding step and its consequences. -/

lemma descFrom_zero (a s : Nat) : descFrom a s 0 = [] := rfl

lemma rangesOf_cons_desc (b s m : Nat) (rest : List (List Nat)) :
    rangesOf (descFrom b s (m + 1) :: rest) = (b, b + m * s) :: rangesOf rest := by
  unfold rangesOf
  rw [List.filterMap_cons]
  rw [descFrom_getLast? b s m, descFrom_head? b s m]

lemma rangesOf_step (a s k N : Nat) (hk : 1 ≤ k) (hN : 1 ≤ N) :
    rangesOf (chunkList k (descFrom a s N)) =
      (a + (N - min k N) * s, a + (N - 1) * s)
        :: rangesOf (chunkList k (descFrom a s (N - k))) := by
  obtain ⟨N', rfl⟩ : ∃ N', N = N' + 1 := ⟨N - 1, by omega⟩
  rw [chunkList_eq k hk _ (descFrom_ne_nil a s N'), descFrom_take, descFrom_drop]
  obtain ⟨m', hm'⟩ : ∃ m', min k (N' + 1) = m' + 1 := ⟨min k (N' + 1) - 1, by omega⟩
  rw [hm', rangesOf_cons_desc]
  congr 2
  · rw [Nat.add_assoc, ← Nat.add_mul]
    congr 2
    omega

lemma rangesOf_ne_nil (a s k N : Nat) (hk : 1 ≤ k) (hN : 1 ≤ N) :
    rangesOf (chunkList k (descFrom a s N)) ≠ [] := by
  rw [rangesOf_step a s k N hk hN]
  simp

lemma rangesOf_mem_shape (a s k : Nat) (hk : 1 ≤ k) :
    ∀ N, ∀ r ∈ rangesOf (chunkList k (descFrom a s N)),
      ∃ i j, i ≤ j ∧ j < N ∧ r = (a + i * s, a + j * s) := by
  intro N
  induction N using Nat.strong_induction_on with
  | _ N ih =>
    rcases Nat.eq_zero_or_pos N with hN | hN
    · subst hN
      intro r hr
      simp [descFrom_zero, chunkList_nil, rangesOf] at hr
    · intro r hr
      rw [rangesOf_step a s k N hk hN] at hr
      rcases List.mem_cons.mp hr with h | h
      · exact ⟨N - min k N, N - 1, by omega, by omega, h⟩
      · obtain ⟨i, j, hij, hjN, hr'⟩ := ih (N - k) (by omega) r h
        exact ⟨i, j, hij, by omega, hr'⟩

lemma rangesOf_mem_points (a s k : Nat) (hk : 1 ≤ k) (hs : 1 ≤ s)
    (ha : a % s = 0) :
    ∀ N x, (∃ r ∈ rangesOf (chunkList k (descFrom a s N)),
        x ∈ getAllPoints r.1 r.2 s) ↔ ∃ i, i < N ∧ x = a + i * s := by
  intro N
  induction N using Nat.strong_induction_on with
  | _ N ih =>
    intro x
    rcases Nat.eq_zero_or_pos N with hN | hN
    · subst hN
      constructor
      · rintro ⟨r, hr, _⟩
        simp [descFrom_zero, chunkList_nil, rangesOf] at hr
      · rintro ⟨i, hi, _⟩
        omega
    · rw [rangesOf_step a s k N hk hN]
      have hb : (a + (N - min k N) * s) % s = 0 := by
        rw [Nat.add_mul_mod_self_right, ha]
      have hend : a + (N - 1) * s = (a + (N - min k N) * s) + (min k N - 1) * s := by
        rw [Nat.add_assoc, ← Nat.add_mul]
        congr 2
        omega
      constructor
      · rintro ⟨r, hr, hx⟩
        rcases List.mem_cons.mp hr with rfl | h
        · dsimp only at hx
          rw [hend, getAllPoints_aligned _ _ _ hs hb, mem_pointsFrom] at hx
          obtain ⟨i, hi, hxi⟩ := hx
          refine ⟨N - min k N + i, by omega, ?_⟩
          rw [hxi, Nat.add_assoc, ← Nat.add_mul]
        · obtain ⟨i, hi, hxi⟩ := (ih (N - k) (by omega) x).mp ⟨r, h, hx⟩
          exact ⟨i, by omega, hxi⟩
      · rintro ⟨i, hiN, rfl⟩
        by_cases hik : i < N - k
        · obtain ⟨r, hr, hx⟩ := (ih (N - k) (by omega) (a + i * s)).mpr ⟨i, hik, rfl⟩
          exact ⟨r, List.mem_cons_of_mem _ hr, hx⟩
        · refine ⟨(a + (N - min k N) * s, a + (N - 1) * s),
            List.mem_cons_self _ _, ?_⟩
          dsimp only
          rw [hend, getAllPoints_aligned _ _ _ hs hb, mem_pointsFrom]
          refine ⟨i - (N - min k N), by omega, ?_⟩
          rw [Nat.add_assoc, ← Nat.add_mul]
          congr 2
          omega

lemma rangesOf_chain (a s k : Nat) (hk : 1 ≤ k) :
    ∀ N, List.Chain' (fun r r' : Nat × Nat => r.1 = r'.2 + s)
      (rangesOf (chunkList k (descFrom a s N))) := by
  intro N
  induction N using Nat.strong_induction_on with
  | _ N ih =>
    rcases Nat.eq_zero_or_pos N with hN | hN
    · subst hN
      simp [descFrom_zero, chunkList_nil, rangesOf]
    · rw [rangesOf_step a s k N hk hN, List.chain'_cons']
      refine ⟨?_, ih (N - k) (by omega)⟩
      intro y hy
      rcases Nat.eq_zero_or_pos (N - k) with h0 | h0
      · rw [h0] at hy
        simp [descFrom_zero, chunkList_nil, rangesOf] at hy
      · rw [rangesOf_step a s k (N - k) hk h0] at hy
        simp only [List.head?_cons, Option.mem_def, Option.some.injEq] at hy
        subst hy
        dsimp only
        have hkN : min k N = k := by omega
        rw [hkN]
        conv_lhs => rw [show N - k = N - k - 1 + 1 from by omega]
        rw [Nat.add_mul, Nat.one_mul]
        omega

lemma rangesOf_dropLast_len (a s k : Nat) (hk : 1 ≤ k) (hs : 1 ≤ s)
    (ha : a % s = 0) :
    ∀ N, ∀ r ∈ (rangesOf (chunkList k (descFrom a s N))).dropLast,
      (getAllPoints r.1 r.2 s).length = k := by
  intro N
  induction N using Nat.strong_induction_on with
  | _ N ih =>
    rcases Nat.eq_zero_or_pos N with hN | hN
    · subst hN
      intro r hr
      simp [descFrom_zero, chunkList_nil, rangesOf] at hr
    · intro r hr
      rw [rangesOf_step a s k N hk hN] at hr
      rcases Nat.eq_zero_or_pos (N - k) with h0 | h0
      · rw [h0] at hr
        simp [descFrom_zero, chunkList_nil, rangesOf, List.dropLast_single] at hr
      · have hrest : rangesOf (chunkList k (descFrom a s (N - k))) ≠ [] :=
          rangesOf_ne_nil a s k (N - k) hk h0
        rw [List.dropLast_cons_of_ne_nil hrest] at hr
        rcases List.mem_cons.mp hr with rfl | h
        · have hb : (a + (N - min k N) * s) % s = 0 := by
            rw [Nat.add_mul_mod_self_right, ha]
          have hend : a + (N - 1) * s =
              (a + (N - min k N) * s) + (min k N - 1) * s := by
            rw [Nat.add_assoc, ← Nat.add_mul]
            congr 2
            omega
          dsimp only
          rw [hend, getAllPoints_aligned _ _ _ hs hb, pointsFrom_length]
          omega
        · exact ih (N - k) (by omega) r h

lemma rangesOf_len_one (a s : Nat) (hs : 1 ≤ s) (ha : a % s = 0) :
    ∀ N, ∀ r ∈ rangesOf (chunkList 1 (descFrom a s N)),
      (getAllPoints r.1 r.2 s).length = 1 := by
  intro N
  induction N using Nat.strong_induction_on with
  | _ N ih =>
    rcases Nat.eq_zero_or_pos N with hN | hN
    · subst hN
      intro r hr
      simp [descFrom_zero, chunkList_nil, rangesOf] at hr
    · intro r hr
      rw [rangesOf_step a s 1 N (Nat.le_refl 1) hN] at hr
      rcases List.mem_cons.mp hr with rfl | h
      · have hb : (a + (N - min 1 N) * s) % s = 0 := by
          rw [Nat.add_mul_mod_self_right, ha]
        have hend : a + (N - 1) * s =
            (a + (N - min 1 N) * s) + (min 1 N - 1) * s := by
          rw [Nat.add_assoc, ← Nat.add_mul]
          congr 2
          omega
        dsimp only
        rw [hend, getAllPoints_aligned _ _ _ hs hb, pointsFrom_length]
        omega
      · exact ih (N - 1) (by omega) r h

/-- For valid inputs, getRanges succeeds and its output is the reversal of the
ranges extracted from the chunked descending aligned grid. -/
lemma getRanges_ok (startTime endTime step ideal : Nat) (hs : 1 ≤ step)
    (hi : 1 ≤ ideal) (hse : startTime ≤ endTime) :
    ∃ m, getRanges startTime endTime step ideal =
        Except.ok ((rangesOf (chunkList (max (ideal / step) 1)
          (descFrom (expandTimeRange startTime endTime step).1 step
            (m + 1)))).reverse) ∧
      getAllPoints startTime endTime step =
        pointsFrom (expandTimeRange startTime endTime step).1 step (m + 1) := by
  obtain ⟨m, hpts, _⟩ := getAllPoints_exists_pointsFrom startTime endTime step hs hse
  refine ⟨m, ?_, hpts⟩
  simp only [getRanges]
  rw [if_neg (by omega), hpts, pointsFrom_reverse]

/-! Helper lemmas transferring facts through List.reverse. -/

lemma tail_reverse_eq {α : Type} (l : List α) :
    l.reverse.tail = l.dropLast.reverse := by
  rcases List.eq_nil_or_concat l with rfl | ⟨l', x, rfl⟩
  · rfl
  · rw [List.concat_eq_append, List.reverse_append, List.dropLast_concat]
    simp

lemma getLast_mem_tail {α : Type} : ∀ (l : List α), 2 ≤ l.length → ∀ r : α,
    l.getLast? = some r → r ∈ l.tail
  | [], h, _, _ => by simp at h
  | [_], h, _, _ => by simp at h
  | _ :: y :: t, _, r, hr => by
    rw [List.getLast?_cons_cons] at hr
    exact List.mem_of_getLast?_eq_some hr

/-! Helper lemmas about the scheduler model. -/

section SchedulerLemmas

variable {E R : Type} (partition : List (Nat × Nat)) (rid : String)
  (exec : SubRequest → Except E R) (combine : Option R → R → R)
  (limit : R → Bool)

lemma next_succ (n : Nat) (acc : Option R) :
    next partition rid exec combine limit (n + 1) acc =
      SchedulerEvent.dispatch (reqFor partition rid (n + 1))
        :: afterResult partition rid exec combine limit (n + 1) acc := rfl

lemma afterResult_err (n : Nat) (acc : Option R) (e : E)
    (he : exec (reqFor partition rid (n + 1)) = Except.error e) :
    afterResult partition rid exec combine limit (n + 1) acc = [] := by
  unfold afterResult
  rw [he]

lemma afterResult_cont (n : Nat) (acc : Option R) (r : R)
    (hr : exec (reqFor partition rid (n + 2)) = Except.ok r)
    (hl : limit (combine acc r) = false) :
    afterResult partition rid exec combine limit (n + 2) acc =
      SchedulerEvent.dispatch (reqFor partition rid (n + 1))
        :: SchedulerEvent.emit (combine acc r) LoadingState.Streaming
        :: afterResult partition rid exec combine limit (n + 1)
            (some (combine acc r)) := by
  unfold afterResult
  rw [hr]
  dsimp only
  rw [if_pos ⟨by omega, hl⟩]
  rfl

lemma afterResult_stop (n : Nat) (acc : Option R) (r : R)
    (hr : exec (reqFor partition rid (n + 1)) = Except.ok r)
    (hl : limit (combine acc r) = true) :
    afterResult partition rid exec combine limit (n + 1) acc =
      [SchedulerEvent.emit (combine acc r) LoadingState.Done] := by
  unfold afterResult
  rw [hr]
  dsimp only
  rw [if_neg (by simp [hl])]

lemma afterResult_base (acc : Option R) (r : R)
    (hr : exec (reqFor partition rid 1) = Except.ok r) :
    afterResult partition rid exec combine limit 1 acc =
      [SchedulerEvent.emit (combine acc r) LoadingState.Done] := by
  show afterResult partition rid exec combine limit (0 + 1) acc = _
  unfold afterResult
  rw [hr]
  dsimp only
  rw [if_neg (fun h => absurd h.1 (by omega))]

lemma afterResult_no_subError :
    ∀ (n : Nat) (acc : Option R) (ev : SchedulerEvent R E),
      ev ∈ afterResult partition rid exec combine limit n acc →
        isSubError ev = false := by
  intro n
  induction n with
  | zero =>
    intro acc ev hev
    simp [afterResult] at hev
  | succ n ih =>
    intro acc ev hev
    unfold afterResult at hev
    cases hex : exec (reqFor partition rid (n + 1)) with
    | error e =>
      rw [hex] at hev
      simp at hev
    | ok r =>
      rw [hex] at hev
      dsimp only at hev
      by_cases hc : 1 < n + 1 ∧ limit (combine acc r) = false
      · rw [if_pos hc] at hev
        rcases List.mem_cons.mp hev with rfl | hev2
        · rfl
        rcases List.mem_cons.mp hev2 with rfl | hev3
        · rfl
        · exact ih (some (combine acc r)) ev hev3
      · rw [if_neg hc] at hev
        simp at hev
        subst hev
        rfl

lemma next_no_subError :
    ∀ (n : Nat) (acc : Option R) (ev : SchedulerEvent R E),
      ev ∈ next partition rid exec combine limit n acc →
        isSubError ev = false := by
  intro n acc ev hev
  cases n with
  | zero => simp [next] at hev
  | succ n =>
    rw [next_succ] at hev
    rcases List.mem_cons.mp hev with rfl | hev2
    · rfl
    · exact afterResult_no_subError partition rid exec combine limit
        (n + 1) acc ev hev2

lemma dispatches_cons_dispatch (q : SubRequest) (t : List (SchedulerEvent R E)) :
    dispatches (SchedulerEvent.dispatch q :: t) = q :: dispatches t := rfl

lemma dispatches_cons_emit (r : R) (st : LoadingState)
    (t : List (SchedulerEvent R E)) :
    dispatches (SchedulerEvent.emit r st :: t) = dispatches t := rfl

lemma outputEvents_cons_dispatch (q : SubRequest)
    (t : List (SchedulerEvent R E)) :
    outputEvents (SchedulerEvent.dispatch q :: t) = outputEvents t := rfl

lemma outputEvents_cons_emit (r : R) (st : LoadingState)
    (t : List (SchedulerEvent R E)) :
    outputEvents (SchedulerEvent.emit r st :: t) =
      SchedulerEvent.emit r st :: outputEvents t := rfl

lemma dispatches_next_all_ok
    (hex : ∀ req : SubRequest, ∃ r : R, exec req = Except.ok r)
    (hlim : ∀ r : R, limit r = false) :
    ∀ (n : Nat) (acc : Option R),
      dispatches (next partition rid exec combine limit n acc) =
        reqsFrom partition rid n := by
  intro n
  induction n with
  | zero => intro acc; rfl
  | succ n ih =>
    intro acc
    obtain ⟨r, hr⟩ := hex (reqFor partition rid (n + 1))
    cases n with
    | zero =>
      rw [next_succ, afterResult_base partition rid exec combine limit acc r hr]
      rfl
    | succ n' =>
      rw [next_succ, afterResult_cont partition rid exec combine limit n' acc r
        hr (hlim _)]
      rw [dispatches_cons_dispatch, dispatches_cons_dispatch,
        dispatches_cons_emit]
      have hih := ih (some (combine acc r))
      rw [next_succ, dispatches_cons_dispatch] at hih
      rw [show reqsFrom partition rid (n' + 2) =
        reqFor partition rid (n' + 2) :: reqsFrom partition rid (n' + 1)
        from rfl]
      rw [← hih]

end SchedulerLemmas

/-! Claim theorems. -/

/-- C1: for every step >= 1, idealChunkSize >= 1 and start <= end, the union of
the point sets of all ranges returned by getRanges(start, end, step,
idealChunkSize) equals exactly the full aligned point grid of [start, end] at
step: no grid point is missing and no point outside the grid appears in any
range. -/
theorem claim1_coverage (startTime endTime step ideal : Nat)
    (ranges : List (Nat × Nat)) (hs : 1 ≤ step) (hi : 1 ≤ ideal)
    (hse : startTime ≤ endTime)
    (hok : getRanges startTime endTime step ideal = Except.ok ranges) :
    ∀ x, (∃ r ∈ ranges, x ∈ getAllPoints r.1 r.2 step) ↔
      x ∈ getAllPoints startTime endTime step := by
  obtain ⟨m, hrg, hpts⟩ := getRanges_ok startTime endTime step ideal hs hi hse
  rw [hok] at hrg
  injection hrg with h
  subst h
  intro x
  constructor
  · rintro ⟨r, hr, hx⟩
    rw [List.mem_reverse] at hr
    have hmem := (rangesOf_mem_points (expandTimeRange startTime endTime step).1
      step (max (ideal / step) 1) (by omega) hs
      (expandTimeRange_fst_mod startTime endTime step) (m + 1) x).mp ⟨r, hr, hx⟩
    rw [hpts, mem_pointsFrom]
    exact hmem
  · intro hx
    rw [hpts, mem_pointsFrom] at hx
    obtain ⟨r, hr, hxr⟩ := (rangesOf_mem_points
      (expandTimeRange startTime endTime step).1 step (max (ideal / step) 1)
      (by omega) hs (expandTimeRange_fst_mod startTime endTime step)
      (m + 1) x).mpr hx
    exact ⟨r, List.mem_reverse.mpr hr, hxr⟩

/-- Witness for C1 at start 3, end 63, step 10, idealChunkSize 35. -/
theorem claim1_coverage_witness :
    (1 ≤ 10 ∧ 1 ≤ 35 ∧ 3 ≤ 63 ∧
      getRanges 3 63 10 35 = Except.ok [(0, 10), (20, 40), (50, 70)]) ∧
    ∀ x, (∃ r ∈ [((0 : Nat), (10 : Nat)), (20, 40), (50, 70)],
        x ∈ getAllPoints r.1 r.2 10) ↔ x ∈ getAllPoints 3 63 10 :=
  ⟨⟨by omega, by omega, by omega, by rfl⟩,
    claim1_coverage 3 63 10 35 [(0, 10), (20, 40), (50, 70)] (by omega)
      (by omega) (by omega) (by rfl)⟩

/-- C2: for every step >= 1 and every pair (start, end) with start <= end,
every start bound and every end bound of every range returned by getRanges is
congruent to 0 mod step. -/
theorem claim2_alignment (startTime endTime step ideal : Nat)
    (ranges : List (Nat × Nat)) (hs : 1 ≤ step) (hse : startTime ≤ endTime)
    (hok : getRanges startTime endTime step ideal = Except.ok ranges) :
    ∀ r ∈ ranges, r.1 % step = 0 ∧ r.2 % step = 0 := by
  have hi : 1 ≤ ideal := by
    by_contra hi
    simp only [getRanges] at hok
    rw [if_pos (by omega)] at hok
    exact Except.noConfusion hok
  obtain ⟨m, hrg, _⟩ := getRanges_ok startTime endTime step ideal hs hi hse
  rw [hok] at hrg
  injection hrg with h
  subst h
  intro r hr
  rw [List.mem_reverse] at hr
  obtain ⟨i, j, _, _, rfl⟩ := rangesOf_mem_shape
    (expandTimeRange startTime endTime step).1 step (max (ideal / step) 1)
    (by omega) (m + 1) r hr
  have ha := expandTimeRange_fst_mod startTime endTime step
  refine ⟨?_, ?_⟩
  · dsimp only
    rw [Nat.add_mul_mod_self_right]
    exact ha
  · dsimp only
    rw [Nat.add_mul_mod_self_right]
    exact ha

/-- Witness for C2 at start 3, end 63, step 10, idealChunkSize 35. -/
theorem claim2_alignment_witness :
    (1 ≤ 10 ∧ 3 ≤ 63 ∧
      getRanges 3 63 10 35 = Except.ok [(0, 10), (20, 40), (50, 70)]) ∧
    ∀ r ∈ [((0 : Nat), (10 : Nat)), (20, 40), (50, 70)],
      r.1 % 10 = 0 ∧ r.2 % 10 = 0 :=
  ⟨⟨by omega, by omega, by rfl⟩,
    claim2_alignment 3 63 10 35 [(0, 10), (20, 40), (50, 70)] (by omega)
      (by omega) (by rfl)⟩

/-- C10: for every step >= 1, idealChunkSize >= 1 and start <= end, getRanges
returns a non-empty list of well-formed ranges in strictly ascending
chronological order in which consecutive ranges never share a boundary point:
for every adjacent pair, the next range's start equals the previous range's
end plus exactly one step. -/
theorem claim10_disjoint_ascending (startTime endTime step ideal : Nat)
    (ranges : List (Nat × Nat)) (hs : 1 ≤ step) (hi : 1 ≤ ideal)
    (hse : startTime ≤ endTime)
    (hok : getRanges startTime endTime step ideal = Except.ok ranges) :
    ranges ≠ [] ∧ (∀ r ∈ ranges, r.1 ≤ r.2) ∧
      List.Chain' (fun r r' : Nat × Nat => r'.1 = r.2 + step) ranges := by
  obtain ⟨m, hrg, _⟩ := getRanges_ok startTime endTime step ideal hs hi hse
  rw [hok] at hrg
  injection hrg with h
  subst h
  refine ⟨?_, ?_, ?_⟩
  · intro hnil
    rw [List.reverse_eq_nil_iff] at hnil
    exact rangesOf_ne_nil (expandTimeRange startTime endTime step).1 step
      (max (ideal / step) 1) (m + 1) (by omega) (by omega) hnil
  · intro r hr
    rw [List.mem_reverse] at hr
    obtain ⟨i, j, hij, _, rfl⟩ := rangesOf_mem_shape
      (expandTimeRange startTime endTime step).1 step (max (ideal / step) 1)
      (by omega) (m + 1) r hr
    dsimp only
    exact Nat.add_le_add_left (Nat.mul_le_mul_right _ hij) _
  · rw [List.chain'_reverse]
    exact rangesOf_chain (expandTimeRange startTime endTime step).1 step
      (max (ideal / step) 1) (by omega) (m + 1)

/-- Witness for C10 at start 3, end 63, step 10, idealChunkSize 35. -/
theorem claim10_witness :
    (1 ≤ 10 ∧ 1 ≤ 35 ∧ 3 ≤ 63 ∧
      getRanges 3 63 10 35 = Except.ok [(0, 10), (20, 40), (50, 70)]) ∧
    ([((0 : Nat), (10 : Nat)), (20, 40), (50, 70)] ≠ [] ∧
      (∀ r ∈ [((0 : Nat), (10 : Nat)), (20, 40), (50, 70)], r.1 ≤ r.2) ∧
      List.Chain' (fun r r' : Nat × Nat => r'.1 = r.2 + 10)
        [((0 : Nat), (10 : Nat)), (20, 40), (50, 70)]) :=
  ⟨⟨by omega, by omega, by omega, by rfl⟩,
    claim10_disjoint_ascending 3 63 10 35 [(0, 10), (20, 40), (50, 70)]
      (by omega) (by omega) (by omega) (by rfl)⟩

/-- C3 (amended): every range returned by getRanges except possibly the
chronologically earliest (first) one contains exactly
max(trunc(idealChunkSize/step), 1) grid points; whenever the output contains at
least two ranges, the chronologically last range is full-sized; and when
idealChunkSize < step every range contains exactly one point. -/
theorem claim3_amended (startTime endTime step ideal : Nat)
    (ranges : List (Nat × Nat)) (hs : 1 ≤ step) (hi : 1 ≤ ideal)
    (hse : startTime ≤ endTime)
    (hok : getRanges startTime endTime step ideal = Except.ok ranges) :
    (∀ r ∈ ranges.tail,
      (getAllPoints r.1 r.2 step).length = max (ideal / step) 1) ∧
    (∀ r : Nat × Nat, 2 ≤ ranges.length → ranges.getLast? = some r →
      (getAllPoints r.1 r.2 step).length = max (ideal / step) 1) ∧
    (ideal < step → ∀ r ∈ ranges, (getAllPoints r.1 r.2 step).length = 1) := by
  obtain ⟨m, hrg, _⟩ := getRanges_ok startTime endTime step ideal hs hi hse
  rw [hok] at hrg
  injection hrg with h
  subst h
  have htail : ∀ r ∈ ((rangesOf (chunkList (max (ideal / step) 1)
      (descFrom (expandTimeRange startTime endTime step).1 step
        (m + 1)))).reverse).tail,
      (getAllPoints r.1 r.2 step).length = max (ideal / step) 1 := by
    intro r hr
    rw [tail_reverse_eq, List.mem_reverse] at hr
    exact rangesOf_dropLast_len (expandTimeRange startTime endTime step).1 step
      (max (ideal / step) 1) (by omega) hs
      (expandTimeRange_fst_mod startTime endTime step) (m + 1) r hr
  refine ⟨htail, ?_, ?_⟩
  · intro r hlen hlast
    exact htail r (getLast_mem_tail _ hlen r hlast)
  · intro hlt r hr
    have hk1 : max (ideal / step) 1 = 1 := by
      have hd : ideal / step = 0 := Nat.div_eq_of_lt hlt
      omega
    rw [List.mem_reverse] at hr
    rw [hk1] at hr
    exact rangesOf_len_one (expandTimeRange startTime endTime step).1 step hs
      (expandTimeRange_fst_mod startTime endTime step) (m + 1) r hr

/-- Counterexample to C3 as stated: at start = end = 0, step = 2,
idealChunkSize = 4, getRanges returns the single range (0, 0); that range is
the chronologically last one yet contains 1 grid point, not
max(trunc(4/2), 1) = 2, so the last range is not always full-sized. -/
theorem claim3_counterexample :
    getRanges 0 0 2 4 = Except.ok [(0, 0)] ∧
      (getAllPoints 0 0 2).length ≠ max (4 / 2) 1 :=
  ⟨by rfl, by decide⟩

/-- Witness for the amended C3 at start 3, end 63, step 10, idealChunkSize 35. -/
theorem claim3_witness :
    (1 ≤ 10 ∧ 1 ≤ 35 ∧ 3 ≤ 63 ∧
      getRanges 3 63 10 35 = Except.ok [(0, 10), (20, 40), (50, 70)]) ∧
    ((∀ r ∈ [((0 : Nat), (10 : Nat)), (20, 40), (50, 70)].tail,
        (getAllPoints r.1 r.2 10).length = max (35 / 10) 1) ∧
      (∀ r : Nat × Nat, 2 ≤ [((0 : Nat), (10 : Nat)), (20, 40), (50, 70)].length →
        [((0 : Nat), (10 : Nat)), (20, 40), (50, 70)].getLast? = some r →
        (getAllPoints r.1 r.2 10).length = max (35 / 10) 1) ∧
      (35 < 10 → ∀ r ∈ [((0 : Nat), (10 : Nat)), (20, 40), (50, 70)],
        (getAllPoints r.1 r.2 10).length = 1)) :=
  ⟨⟨by omega, by omega, by omega, by rfl⟩,
    claim3_amended 3 63 10 35 [(0, 10), (20, 40), (50, 70)] (by omega)
      (by omega) (by omega) (by rfl)⟩

/-- C8 (amended): getRanges fails with the invalid-argument error if and only
if idealChunkSize < 1.  The other two spec preconditions are not checked by the
code: for step < 1 or start > end with idealChunkSize >= 1 the call returns
normally (an empty list when the range yields no points). -/
theorem claim8_amended (startTime endTime step ideal : Nat) :
    (∃ msg, getRanges startTime endTime step ideal = Except.error msg) ↔
      ideal < 1 := by
  constructor
  · rintro ⟨msg, hmsg⟩
    by_contra hi
    simp only [getRanges] at hmsg
    rw [if_neg (by omega)] at hmsg
    exact Except.noConfusion hmsg
  · intro hi
    refine ⟨"idealRangeSize must be at least 1", ?_⟩
    simp only [getRanges]
    rw [if_pos hi]

/-- Counterexample to C8 as stated: getRanges does not fail for start > end
(start 1, end 0, step 1, idealChunkSize 1), nor for step < 1 (step 0, start =
end = 0, idealChunkSize 1); both calls return Except.ok [] instead of an
invalid-argument error. -/
theorem claim8_counterexample :
    getRanges 1 0 1 1 = Except.ok [] ∧ getRanges 0 0 0 1 = Except.ok [] :=
  ⟨by rfl, by rfl⟩

/-- C4: with start and end the UTC instants 2022-02-06T14:10:03 and
2022-02-06T14:11:03 as unix milliseconds, step 10 s and idealChunkSize 35 s,
getRanges returns exactly the ranges 14:10:00-14:10:10, 14:10:20-14:10:40 and
14:10:50-14:11:10 in chronological order, and the scheduler dispatches them
newest-first, absent an early limit stop (limit never reached, all executions
succeed). -/
theorem claim4_concrete_scenario {E R : Type} (rid : String)
    (exec : SubRequest → Except E R) (combine : Option R → R → R)
    (limit : R → Bool)
    (hex : ∀ req : SubRequest, ∃ r : R, exec req = Except.ok r)
    (hlim : ∀ r : R, limit r = false) :
    getRanges 1644156603000 1644156663000 10000 35000 =
      Except.ok [(1644156600000, 1644156610000), (1644156620000, 1644156640000),
        (1644156650000, 1644156670000)] ∧
    (dispatches (runPartitionedQuery
        [(1644156600000, 1644156610000), (1644156620000, 1644156640000),
          (1644156650000, 1644156670000)] rid exec combine limit)).map
        SubRequest.range =
      [(1644156650000, 1644156670000), (1644156620000, 1644156640000),
        (1644156600000, 1644156610000)] := by
  refine ⟨by rfl, ?_⟩
  simp only [runPartitionedQuery]
  rw [dispatches_next_all_ok _ rid exec combine limit hex hlim]
  rfl

/-- Witness for C4 with the always-succeeding execution capability and the
never-reached limit. -/
theorem claim4_witness :
    ((∀ req : SubRequest, ∃ r : Nat, okExecOne req = Except.ok r) ∧
      (∀ r : Nat, noLimit r = false)) ∧
    (getRanges 1644156603000 1644156663000 10000 35000 =
      Except.ok [(1644156600000, 1644156610000), (1644156620000, 1644156640000),
        (1644156650000, 1644156670000)] ∧
    (dispatches (runPartitionedQuery
        [(1644156600000, 1644156610000), (1644156620000, 1644156640000),
          (1644156650000, 1644156670000)] ridA okExecOne sumCombine
        noLimit)).map SubRequest.range =
      [(1644156650000, 1644156670000), (1644156620000, 1644156640000),
        (1644156600000, 1644156610000)]) :=
  ⟨⟨fun _ => ⟨1, rfl⟩, fun _ => rfl⟩,
    claim4_concrete_scenario ridA okExecOne sumCombine noLimit
      (fun _ => ⟨1, rfl⟩) (fun _ => rfl)⟩

/-- C5 (amended): if a sub-query execution fails, the scheduler stops
immediately: the failing dispatch is the last event of the run, no older
partition is dispatched and nothing further is emitted — but no error event is
delivered either.  The inner subscription is created without an error callback,
so the failure is silent: the output sequence never carries a subError event
and in particular does not terminate with an error carrying the partial
accumulator. -/
theorem claim5_amended {E R : Type} (partition : List (Nat × Nat))
    (rid : String) (exec : SubRequest → Except E R)
    (combine : Option R → R → R) (limit : R → Bool) (n : Nat) (acc : Option R)
    (e : E) (hn : 1 ≤ n)
    (he : exec (reqFor partition rid n) = Except.error e) :
    next partition rid exec combine limit n acc =
      [SchedulerEvent.dispatch (reqFor partition rid n)] ∧
    ∀ (m : Nat) (acc' : Option R) (ev : SchedulerEvent R E),
      ev ∈ next partition rid exec combine limit m acc' →
        isSubError ev = false := by
  constructor
  · obtain ⟨n', rfl⟩ : ∃ n', n = n' + 1 := ⟨n - 1, by omega⟩
    rw [next_succ, afterResult_err partition rid exec combine limit n' acc e he]
  · exact next_no_subError partition rid exec combine limit

/-- Witness for the amended C5: the second execution of a three-partition run
fails; from that point the only event is the failing dispatch itself. -/
theorem claim5_witness :
    (1 ≤ 2 ∧ execFailTwo (reqFor partitionThree ridA 2) = Except.error ()) ∧
    (next partitionThree ridA execFailTwo sumCombine noLimit 2 (some 1) =
      [SchedulerEvent.dispatch (reqFor partitionThree ridA 2)] ∧
    ∀ (m : Nat) (acc' : Option Nat) (ev : SchedulerEvent Nat Unit),
      ev ∈ next partitionThree ridA execFailTwo sumCombine noLimit m acc' →
        isSubError ev = false) :=
  ⟨⟨by omega, by rfl⟩,
    claim5_amended partitionThree ridA execFailTwo sumCombine noLimit 2
      (some 1) () (by omega) (by rfl)⟩

/-- Counterexample to C5 as stated: in a three-partition run whose second
execution fails, the full event sequence is two dispatches followed by one
Streaming emission; the output sequence is that single Streaming emission with
no error event after it, so it does not terminate with an error event carrying
the partial accumulator. -/
theorem claim5_counterexample :
    runPartitionedQuery partitionThree ridA execFailTwo sumCombine noLimit =
      [SchedulerEvent.dispatch { range := (2, 2), requestId := "A_3" },
       SchedulerEvent.dispatch { range := (1, 1), requestId := "A_2" },
       SchedulerEvent.emit 1 LoadingState.Streaming] ∧
    outputEvents (runPartitionedQuery partitionThree ridA execFailTwo sumCombine
      noLimit) = [SchedulerEvent.emit 1 LoadingState.Streaming] :=
  ⟨by decide, by decide⟩

/-- C6: under the limit policy, if the limit predicate is false on the
accumulator produced by the first merge and true on the accumulator produced by
the second merge of a five-partition run, then exactly two sub-queries are
dispatched, the output sequence has exactly two emissions, the first marked
Streaming and the second marked Done, and no further partition is executed. -/
theorem claim6_early_stop {E R : Type} (partition : List (Nat × Nat))
    (rid : String) (exec : SubRequest → Except E R)
    (combine : Option R → R → R) (limit : R → Bool) (r5 r4 : R)
    (hlen : partition.length = 5)
    (h5 : exec (reqFor partition rid 5) = Except.ok r5)
    (h4 : exec (reqFor partition rid 4) = Except.ok r4)
    (hl1 : limit (combine none r5) = false)
    (hl2 : limit (combine (some (combine none r5)) r4) = true) :
    dispatches (runPartitionedQuery partition rid exec combine limit) =
      [reqFor partition rid 5, reqFor partition rid 4] ∧
    outputEvents (runPartitionedQuery partition rid exec combine limit) =
      [SchedulerEvent.emit (combine none r5) LoadingState.Streaming,
       SchedulerEvent.emit (combine (some (combine none r5)) r4)
         LoadingState.Done] := by
  have e1 : next partition rid exec combine limit 5 none =
      SchedulerEvent.dispatch (reqFor partition rid 5)
        :: afterResult partition rid exec combine limit 5 none :=
    next_succ partition rid exec combine limit 4 none
  have e2 : afterResult partition rid exec combine limit 5 none =
      SchedulerEvent.dispatch (reqFor partition rid 4)
        :: SchedulerEvent.emit (combine none r5) LoadingState.Streaming
        :: afterResult partition rid exec combine limit 4
            (some (combine none r5)) :=
    afterResult_cont partition rid exec combine limit 3 none r5 h5 hl1
  have e3 : afterResult partition rid exec combine limit 4
      (some (combine none r5)) =
      [SchedulerEvent.emit (combine (some (combine none r5)) r4)
        LoadingState.Done] :=
    afterResult_stop partition rid exec combine limit 3
      (some (combine none r5)) r4 h4 hl2
  have htrace : runPartitionedQuery partition rid exec combine limit =
      [SchedulerEvent.dispatch (reqFor partition rid 5),
       SchedulerEvent.dispatch (reqFor partition rid 4),
       SchedulerEvent.emit (combine none r5) LoadingState.Streaming,
       SchedulerEvent.emit (combine (some (combine none r5)) r4)
         LoadingState.Done] := by
    simp only [runPartitionedQuery, hlen]
    rw [e1, e2, e3]
  rw [htrace]
  exact ⟨rfl, rfl⟩

/-- Witness for C6 with the sum merger, responses of size 5 and the limit
reached at accumulated size 9. -/
theorem claim6_witness :
    (partitionFive.length = 5 ∧
      okExecFive (reqFor partitionFive ridA 5) = Except.ok 5 ∧
      okExecFive (reqFor partitionFive ridA 4) = Except.ok 5 ∧
      limitAtNine (sumCombine none 5) = false ∧
      limitAtNine (sumCombine (some (sumCombine none 5)) 5) = true) ∧
    (dispatches (runPartitionedQuery partitionFive ridA okExecFive sumCombine
        limitAtNine) =
      [reqFor partitionFive ridA 5, reqFor partitionFive ridA 4] ∧
    outputEvents (runPartitionedQuery partitionFive ridA okExecFive sumCombine
        limitAtNine) =
      [SchedulerEvent.emit (sumCombine none 5) LoadingState.Streaming,
       SchedulerEvent.emit (sumCombine (some (sumCombine none 5)) 5)
         LoadingState.Done]) :=
  ⟨⟨rfl, rfl, rfl, rfl, rfl⟩,
    claim6_early_stop partitionFive ridA okExecFive sumCombine limitAtNine 5 5
      rfl rfl rfl rfl rfl⟩

/-- C7 (amended): sub-query identifiers have the form "{requestId}_{N}" where
N is the partition's 1-based chronological index, so N counts downward in
execution order: with no early stop the dispatch sequence is requestN =
totalRequests, totalRequests - 1, ..., 1; the first-executed (chronologically
newest) partition receives N = totalRequests and the last-executed (oldest)
receives N = 1. -/
theorem claim7_amended {E R : Type} (partition : List (Nat × Nat))
    (rid : String) (exec : SubRequest → Except E R)
    (combine : Option R → R → R) (limit : R → Bool)
    (hex : ∀ req : SubRequest, ∃ r : R, exec req = Except.ok r)
    (hlim : ∀ r : R, limit r = false) :
    dispatches (runPartitionedQuery partition rid exec combine limit) =
      reqsFrom partition rid partition.length ∧
    ∀ requestN : Nat, (reqFor partition rid requestN).requestId =
      rid ++ "_" ++ toString requestN := by
  refine ⟨?_, fun _ => rfl⟩
  simp only [runPartitionedQuery]
  exact dispatches_next_all_ok partition rid exec combine limit hex hlim
    partition.length none

/-- Witness for the amended C7 on a two-partition run. -/
theorem claim7_witness :
    ((∀ req : SubRequest, ∃ r : Nat, okExecOne req = Except.ok r) ∧
      (∀ r : Nat, noLimit r = false)) ∧
    (dispatches (runPartitionedQuery partitionTwo ridA okExecOne sumCombine
        noLimit) = reqsFrom partitionTwo ridA partitionTwo.length ∧
    ∀ requestN : Nat, (reqFor partitionTwo ridA requestN).requestId =
      ridA ++ "_" ++ toString requestN) :=
  ⟨⟨fun _ => ⟨1, rfl⟩, fun _ => rfl⟩,
    claim7_amended partitionTwo ridA okExecOne sumCombine noLimit
      (fun _ => ⟨1, rfl⟩) (fun _ => rfl)⟩

/-- Counterexample to C7 as stated: in a two-partition run the first-executed
(newest) partition is tagged "A_2" and the second-executed "A_1" — the opposite
of counting from 1 upward in execution order, which would give "A_1" then
"A_2". -/
theorem claim7_counterexample :
    (dispatches (runPartitionedQuery partitionTwo ridA okExecOne sumCombine
        noLimit)).map SubRequest.requestId = ["A_2", "A_1"] ∧
      (["A_2", "A_1"] : List String) ≠ ["A_1", "A_2"] :=
  ⟨by decide, by decide⟩

/-- C9 (amended): unsubscribing does not prevent further sub-query dispatches.
The generated event sequence does not depend on the subscriber at all: the
source installs no teardown and never checks the subscriber before the
recursive next call, and it dispatches the following sub-query before emitting
the current response.  In any three-partition run with no failure and no limit
stop, the dispatch of the oldest partition occurs strictly after the first
emission, so it is issued even for a caller who unsubscribed upon receiving
that first emission; unsubscription only suppresses delivery of later values
(a property of the rx Subscriber, not of this code). -/
theorem claim9_amended {E R : Type} (rid : String)
    (exec : SubRequest → Except E R) (combine : Option R → R → R)
    (limit : R → Bool) (p1 p2 p3 : Nat × Nat) (f : SubRequest → R)
    (hex : ∀ req : SubRequest, exec req = Except.ok (f req))
    (hlim : ∀ r : R, limit r = false) :
    runPartitionedQuery [p1, p2, p3] rid exec combine limit =
      [SchedulerEvent.dispatch (reqFor [p1, p2, p3] rid 3),
       SchedulerEvent.dispatch (reqFor [p1, p2, p3] rid 2),
       SchedulerEvent.emit (combine none (f (reqFor [p1, p2, p3] rid 3)))
         LoadingState.Streaming,
       SchedulerEvent.dispatch (reqFor [p1, p2, p3] rid 1),
       SchedulerEvent.emit
         (combine (some (combine none (f (reqFor [p1, p2, p3] rid 3))))
           (f (reqFor [p1, p2, p3] rid 2))) LoadingState.Streaming,
       SchedulerEvent.emit
         (combine (some (combine
             (some (combine none (f (reqFor [p1, p2, p3] rid 3))))
             (f (reqFor [p1, p2, p3] rid 2))))
           (f (reqFor [p1, p2, p3] rid 1))) LoadingState.Done] := by
  have e1 : next [p1, p2, p3] rid exec combine limit 3 none =
      SchedulerEvent.dispatch (reqFor [p1, p2, p3] rid 3)
        :: afterResult [p1, p2, p3] rid exec combine limit 3 none :=
    next_succ [p1, p2, p3] rid exec combine limit 2 none
  have e2 : afterResult [p1, p2, p3] rid exec combine limit 3 none =
      SchedulerEvent.dispatch (reqFor [p1, p2, p3] rid 2)
        :: SchedulerEvent.emit (combine none (f (reqFor [p1, p2, p3] rid 3)))
            LoadingState.Streaming
        :: afterResult [p1, p2, p3] rid exec combine limit 2
            (some (combine none (f (reqFor [p1, p2, p3] rid 3)))) :=
    afterResult_cont [p1, p2, p3] rid exec combine limit 1 none
      (f (reqFor [p1, p2, p3] rid 3)) (hex _) (hlim _)
  have e3 : afterResult [p1, p2, p3] rid exec combine limit 2
      (some (combine none (f (reqFor [p1, p2, p3] rid 3)))) =
      SchedulerEvent.dispatch (reqFor [p1, p2, p3] rid 1)
        :: SchedulerEvent.emit
            (combine (some (combine none (f (reqFor [p1, p2, p3] rid 3))))
              (f (reqFor [p1, p2, p3] rid 2))) LoadingState.Streaming
        :: afterResult [p1, p2, p3] rid exec combine limit 1
            (some (combine (some (combine none (f (reqFor [p1, p2, p3] rid 3))))
              (f (reqFor [p1, p2, p3] rid 2)))) :=
    afterResult_cont [p1, p2, p3] rid exec combine limit 0
      (some (combine none (f (reqFor [p1, p2, p3] rid 3))))
      (f (reqFor [p1, p2, p3] rid 2)) (hex _) (hlim _)
  have e4 : afterResult [p1, p2, p3] rid exec combine limit 1
      (some (combine (some (combine none (f (reqFor [p1, p2, p3] rid 3))))
        (f (reqFor [p1, p2, p3] rid 2)))) =
      [SchedulerEvent.emit
        (combine (some (combine
            (some (combine none (f (reqFor [p1, p2, p3] rid 3))))
            (f (reqFor [p1, p2, p3] rid 2))))
          (f (reqFor [p1, p2, p3] rid 1))) LoadingState.Done] :=
    afterResult_base [p1, p2, p3] rid exec combine limit
      (some (combine (some (combine none (f (reqFor [p1, p2, p3] rid 3))))
        (f (reqFor [p1, p2, p3] rid 2))))
      (f (reqFor [p1, p2, p3] rid 1)) (hex _)
  have hlen : ([p1, p2, p3] : List (Nat × Nat)).length = 3 := rfl
  simp only [runPartitionedQuery, hlen]
  rw [e1, e2, e3, e4]

/-- Witness for the amended C9: concrete three-partition run; the dispatch of
sub-request A_1 is the fourth event, after the first emission (third event). -/
theorem claim9_witness :
    ((∀ req : SubRequest, okExecOne req = Except.ok 1) ∧
      (∀ r : Nat, noLimit r = false)) ∧
    runPartitionedQuery partitionThree ridA okExecOne sumCombine noLimit =
      [SchedulerEvent.dispatch { range := (2, 2), requestId := "A_3" },
       SchedulerEvent.dispatch { range := (1, 1), requestId := "A_2" },
       SchedulerEvent.emit 1 LoadingState.Streaming,
       SchedulerEvent.dispatch { range := (0, 0), requestId := "A_1" },
       SchedulerEvent.emit 2 LoadingState.Streaming,
       SchedulerEvent.emit 3 LoadingState.Done] :=
  ⟨⟨fun _ => rfl, fun _ => rfl⟩,
    claim9_amended ridA okExecOne sumCombine noLimit (0, 0) (1, 1) (2, 2)
      (fun _ => 1) (fun _ => rfl) (fun _ => rfl)⟩

/-- Counterexample to C9 as stated: the event sequence of this three-partition
run contains the dispatch of sub-request A_1 (fourth event, index 3) strictly
after the first emission (third event, index 2), and the sequence is generated
without consulting the subscriber, so a caller who unsubscribes right after
the first emission does not prevent that further dispatch. -/
theorem claim9_counterexample :
    runPartitionedQuery partitionThree ridA okExecOne sumCombine noLimit =
      [SchedulerEvent.dispatch { range := (2, 2), requestId := "A_3" },
       SchedulerEvent.dispatch { range := (1, 1), requestId := "A_2" },
       SchedulerEvent.emit 1 LoadingState.Streaming,
       SchedulerEvent.dispatch { range := (0, 0), requestId := "A_1" },
       SchedulerEvent.emit 2 LoadingState.Streaming,
       SchedulerEvent.emit 3 LoadingState.Done] ∧
    (runPartitionedQuery partitionThree ridA okExecOne sumCombine
      noLimit)[2]? = some (SchedulerEvent.emit 1 LoadingState.Streaming) ∧
    (runPartitionedQuery partitionThree ridA okExecOne sumCombine
      noLimit)[3]? = some (SchedulerEvent.dispatch
        { range := (0, 0), requestId := "A_1" }) :=
  ⟨by decide, by decide, by decide⟩
